import Mathlib

/-!
Verification of the jm-downloader-rs download-and-descramble pipeline.

Each Rust function under scrutiny is shallowly embedded as an executable
Lean definition: machine integers become `Nat`/`Int` with explicit
`% 2 ^ 32` where overflow matters, byte buffers become `List Nat`,
strings become `List Char`, and fallible code returns explicit outcome
types.  Third-party library primitives that the crate merely calls
(the AES block cipher, the serde JSON parser, the HTTP transport) are
taken as parameters of the embedding; everything written in the
repository itself is translated directly from its source.
-/

/-! ## 32-bit arithmetic primitives (Rust `u32` semantics on `Nat`) -/

def add32 (a b : Nat) : Nat := (a + b) % 4294967296

def not32 (a : Nat) : Nat := 4294967295 - a % 4294967296

def rotl32 (a s : Nat) : Nat :=
  Nat.lor (a % 4294967296 * 2 ^ s % 4294967296) (a % 4294967296 / 2 ^ (32 - s))

/-! ## MD5 (the `md5` crate: `md5::compute` followed by `{:x}` formatting) -/

def mdF (b c d : Nat) : Nat := Nat.lor (Nat.land b c) (Nat.land (not32 b) d)

def mdG (b c d : Nat) : Nat := Nat.lor (Nat.land b d) (Nat.land c (not32 d))

def mdH (b c d : Nat) : Nat := Nat.xor b (Nat.xor c d)

def mdI (b c d : Nat) : Nat := Nat.xor c (Nat.lor b (not32 d))

def mdK : List Nat :=
  [0xd76aa478, 0xe8c7b756, 0x242070db, 0xc1bdceee,
   0xf57c0faf, 0x4787c62a, 0xa8304613, 0xfd469501,
   0x698098d8, 0x8b44f7af, 0xffff5bb1, 0x895cd7be,
   0x6b901122, 0xfd987193, 0xa679438e, 0x49b40821,
   0xf61e2562, 0xc040b340, 0x265e5a51, 0xe9b6c7aa,
   0xd62f105d, 0x02441453, 0xd8a1e681, 0xe7d3fbc8,
   0x21e1cde6, 0xc33707d6, 0xf4d50d87, 0x455a14ed,
   0xa9e3e905, 0xfcefa3f8, 0x676f02d9, 0x8d2a4c8a,
   0xfffa3942, 0x8771f681, 0x6d9d6122, 0xfde5380c,
   0xa4beea44, 0x4bdecfa9, 0xf6bb4b60, 0xbebfbc70,
   0x289b7ec6, 0xeaa127fa, 0xd4ef3085, 0x04881d05,
   0xd9d4d039, 0xe6db99e5, 0x1fa27cf8, 0xc4ac5665,
   0xf4292244, 0x432aff97, 0xab9423a7, 0xfc93a039,
   0x655b59c3, 0x8f0ccc92, 0xffeff47d, 0x85845dd1,
   0x6fa87e4f, 0xfe2ce6e0, 0xa3014314, 0x4e0811a1,
   0xf7537e82, 0xbd3af235, 0x2ad7d2bb, 0xeb86d391]

def mdS : List Nat :=
  [7, 12, 17, 22, 7, 12, 17, 22, 7, 12, 17, 22, 7, 12, 17, 22,
   5, 9, 14, 20, 5, 9, 14, 20, 5, 9, 14, 20, 5, 9, 14, 20,
   4, 11, 16, 23, 4, 11, 16, 23, 4, 11, 16, 23, 4, 11, 16, 23,
   6, 10, 15, 21, 6, 10, 15, 21, 6, 10, 15, 21, 6, 10, 15, 21]

def md5step (M : Nat → Nat) (st : Nat × Nat × Nat × Nat) (i : Nat) :
    Nat × Nat × Nat × Nat :=
  let a := st.1
  let b := st.2.1
  let c := st.2.2.1
  let d := st.2.2.2
  let f := if i < 16 then mdF b c d else if i < 32 then mdG b c d
           else if i < 48 then mdH b c d else mdI b c d
  let g := if i < 16 then i else if i < 32 then (5 * i + 1) % 16
           else if i < 48 then (3 * i + 5) % 16 else 7 * i % 16
  let tmp := add32 (add32 (add32 a f) (mdK.getD i 0)) (M g)
  (d, add32 b (rotl32 tmp (mdS.getD i 0)), b, c)

def wordsOfChunk (chunk : List Nat) (g : Nat) : Nat :=
  chunk.getD (4 * g) 0 + 256 * chunk.getD (4 * g + 1) 0 +
    65536 * chunk.getD (4 * g + 2) 0 + 16777216 * chunk.getD (4 * g + 3) 0

def md5chunk (st : Nat × Nat × Nat × Nat) (chunk : List Nat) :
    Nat × Nat × Nat × Nat :=
  let r := (List.range 64).foldl (md5step (wordsOfChunk chunk)) st
  (add32 st.1 r.1, add32 st.2.1 r.2.1, add32 st.2.2.1 r.2.2.1,
   add32 st.2.2.2 r.2.2.2)

def leBytes4 (n : Nat) : List Nat :=
  [n % 256, n / 256 % 256, n / 65536 % 256, n / 16777216 % 256]

def leBytes8 (n : Nat) : List Nat :=
  leBytes4 (n % 4294967296) ++ leBytes4 (n / 4294967296 % 4294967296)

def md5pad (msg : List Nat) : List Nat :=
  msg ++ 128 :: (List.replicate ((119 - msg.length % 64) % 64) 0 ++
    leBytes8 (msg.length * 8 % 18446744073709551616))

def chunks64 (l : List Nat) : List (List Nat) :=
  match l with
  | [] => []
  | a :: t => List.take 64 (a :: t) :: chunks64 (List.drop 64 (a :: t))
termination_by l.length
decreasing_by simp [List.length_drop]; omega

def md5init : Nat × Nat × Nat × Nat :=
  (0x67452301, 0xefcdab89, 0x98badcfe, 0x10325476)

def md5digest (msg : List Nat) : List Nat :=
  let st := (chunks64 (md5pad msg)).foldl md5chunk md5init
  leBytes4 st.1 ++ leBytes4 st.2.1 ++ leBytes4 st.2.2.1 ++ leBytes4 st.2.2.2

def hexNibbleChar (n : Nat) : Char :=
  if n < 10 then Char.ofNat (48 + n) else Char.ofNat (87 + n)

def byteToHex (b : Nat) : List Char :=
  [hexNibbleChar (b / 16 % 16), hexNibbleChar (b % 16)]

/-- Lowercase hexadecimal rendering of an MD5 digest, as produced by
`format!("{:x}", md5::compute(..))` in the source. -/
def md5Hex (msg : List Nat) : List Char := (md5digest msg).flatMap byteToHex

/-! ## UTF-8 encoding of strings (Rust `str` bytes) -/

def utf8Bytes (c : Char) : List Nat :=
  let n := c.toNat
  if n < 128 then [n]
  else if n < 2048 then [192 + n / 64, 128 + n % 64]
  else if n < 65536 then [224 + n / 4096, 128 + n / 64 % 64, 128 + n % 64]
  else [240 + n / 262144, 128 + n / 4096 % 64, 128 + n / 64 % 64, 128 + n % 64]

def strBytes (s : List Char) : List Nat := s.flatMap utf8Bytes

/-! ## `calculate_block_num` (src/jm_client.rs) -/

/-- `filename.rsplit_once('.')` keeping only the part before the last dot:
`some stem` when the list contains a dot, `none` otherwise. -/
def rsplitOnceStem (l : List Char) : Option (List Char) :=
  match l with
  | [] => none
  | c :: rest =>
    match rsplitOnceStem rest with
    | some s => some (c :: s)
    | none => if c = '.' then some [] else none

/-- Embedding of `calculate_block_num(scramble_id, chapter_id, filename)`.
The `.chars().last().unwrap()` of the 32-character hash is rendered as
`getLastD _ 'a'`; the default is unreachable because the hex digest is
never empty. -/
def calculate_block_num (scramble_id chapter_id : Int) (filename : List Char) :
    Nat :=
  if chapter_id < scramble_id then 0
  else if chapter_id < 268850 then 10
  else
    let x : Nat := if chapter_id < 421926 then 10 else 8
    let filename_without_ext := (rsplitOnceStem filename).getD filename
    let s := (toString chapter_id).toList ++ filename_without_ext
    let md5_hash := md5Hex (strBytes s)
    let block_num := (md5_hash.getLastD 'a').toNat
    block_num % x * 2 + 2

/-! ## `stitch_img` (src/image_processor.rs)

An `RgbImage` is embedded as its dimensions together with a pixel map
`x ↦ y ↦ pixel`; `image::ImageBuffer::new` zero-fills, so the fresh
destination buffer is the constant-zero pixel map.  The inner `for x`
loop of the source applies the same row copy to every column, so the
per-column write loops are embedded as folds over `List.range` with
pointwise function update playing the role of `put_pixel`. -/

def Pixel : Type := Nat × Nat × Nat

instance : DecidableEq Pixel := fun a b => instDecidableEqProd a b

def zeroPixel : Pixel := (0, 0, 0)

structure Img where
  width : Nat
  height : Nat
  pix : Nat → Nat → Pixel

/-- `put_pixel` on a single column: update the row map at one row. -/
def putRow (col : Nat → Pixel) (y : Nat) (v : Pixel) : Nat → Pixel :=
  fun t => if t = y then v else col t

/-- One iteration of the outer `for i in 0..block_num` loop of
`stitch_img`, restricted to a single column `src`. -/
def stitchBand (src : Nat → Pixel) (height block_num i : Nat)
    (buf : Nat → Pixel) : Nat → Pixel :=
  let remainder_height := height % block_num
  let block_height0 := height / block_num
  let src_img_y_start := height - block_height0 * (i + 1) - remainder_height
  let dst_img_y_start0 := block_height0 * i
  let block_height := if i = 0 then block_height0 + remainder_height
                      else block_height0
  let dst_img_y_start := if i = 0 then dst_img_y_start0
                         else dst_img_y_start0 + remainder_height
  (List.range block_height).foldl
    (fun b y => putRow b (dst_img_y_start + y) (src (src_img_y_start + y))) buf

/-- The full column transform of `stitch_img`. -/
def stitchCol (src : Nat → Pixel) (height block_num : Nat) : Nat → Pixel :=
  (List.range block_num).foldl
    (fun buf i => stitchBand src height block_num i buf) (fun _ => zeroPixel)

/-- Embedding of `stitch_img(src_img, block_num)`. -/
def stitch_img (src_img : Img) (block_num : Nat) : Img :=
  { width := src_img.width
    height := src_img.height
    pix := fun x => stitchCol (fun y => src_img.pix x y) src_img.height block_num }

/-- The source row that `stitch_img` copies to destination row `t`
(definable in closed form; proved to agree with the fold). -/
def stitchSrcRow (height block_num t : Nat) : Nat :=
  let q := height / block_num
  let r := height % block_num
  if t < q + r then height - q - r + t
  else
    let i := (t - r) / q
    height - q * (i + 1) - r + (t - (q * i + r))

/-- Inverse of `stitchSrcRow` on `[0, height)`. -/
def stitchDstRow (height block_num s : Nat) : Nat :=
  let q := height / block_num
  let r := height % block_num
  if q * (block_num - 1) ≤ s then s - q * (block_num - 1)
  else q * (block_num - 1 - s / q) + r + s % q

/-- Multiset of pixel values in column `x` of an image. -/
def colMultiset (img : Img) (x : Nat) : Multiset Pixel :=
  Multiset.map (fun y => img.pix x y) (Multiset.range img.height)

/-- Destination start row of the `i`-th output band (§4.B formulas). -/
def bandDstStart (height block_num i : Nat) : Nat :=
  height / block_num * i + (if i = 0 then 0 else height % block_num)

/-- Source start row of the `i`-th band. -/
def bandSrcStart (height block_num i : Nat) : Nat :=
  height - height / block_num * (i + 1) - height % block_num

/-- Height of the `i`-th band. -/
def bandHeight (height block_num i : Nat) : Nat :=
  height / block_num + (if i = 0 then height % block_num else 0)

/-! ## String helpers shared by the client embeddings -/

/-- Substring containment, Rust `str::contains(pattern)`. -/
def containsSub (pat : List Char) : List Char → Bool
  | [] => pat.isPrefixOf []
  | h :: t => pat.isPrefixOf (h :: t) || containsSub pat t

/-- ASCII-range case folding; `str::to_lowercase` restricted to the
characters that actually occur in the matched patterns (ASCII letters;
all other characters, including the CJK ones, map to themselves). -/
def toLowerAscii (s : List Char) : List Char :=
  s.map fun c =>
    if 65 ≤ c.toNat ∧ c.toNat ≤ 90 then Char.ofNat (c.toNat + 32) else c

/-- The Unicode `White_Space` code points, Rust `char::is_whitespace`. -/
def rustIsWhitespace (c : Char) : Bool :=
  let n := c.toNat
  (9 ≤ n ∧ n ≤ 13) || n = 32 || n = 133 || n = 160 || n = 5760 ||
    (8192 ≤ n ∧ n ≤ 8202) || n = 8232 || n = 8233 || n = 8239 ||
    n = 8287 || n = 12288

/-- Rust `str::trim`. -/
def rustTrim (s : List Char) : List Char :=
  (s.dropWhile rustIsWhitespace).reverse.dropWhile rustIsWhitespace |>.reverse

/-! ## JSON values (`serde_json::Value`) -/

inductive JVal where
  | null : JVal
  | bool : Bool → JVal
  | num : Int → JVal
  | str : List Char → JVal
  | arr : List JVal → JVal
  | obj : List (List Char × JVal) → JVal

/-- `Value::get(key)`: field lookup on objects, `None` on anything else. -/
def jget (v : JVal) (key : List Char) : Option JVal :=
  match v with
  | .obj fields => (fields.find? fun p => p.1 == key).map (·.2)
  | _ => none

/-! ## Missing-comic detection and the album pipeline (src/jm_client.rs) -/

/-- Embedding of `is_missing_comic(value)`. -/
def is_missing_comic (value : JVal) : Bool :=
  match jget value ("name".toList) with
  | none => true
  | some .null => true
  | some (.str name) => (rustTrim name).isEmpty
  | some _ => false

/-- Embedding of `raw_missing_comic(data)`. -/
def raw_missing_comic (data : List Char) : Bool :=
  containsSub ("\"name\":null".toList) data ||
    containsSub ("\"name\": null".toList) data ||
    containsSub ("\"name\":\"\"".toList) data ||
    containsSub ("\"name\": \"\"".toList) data

/-- Outcome of a protocol-client call, keeping only the error kind
distinctions the claims are about. -/
inductive CallOutcome (γ : Type) where
  | notFound : CallOutcome γ
  | internalErr : CallOutcome γ
  | ok : γ → CallOutcome γ
deriving DecidableEq

/-- The stage of `JmClient::get_comic` that runs on the decrypted album
string: the raw scan, the `serde_json::from_str` parse (abstracted as
the `parse` parameter — the parser lives in the serde_json crate), the
parsed-object scan, and the typed extraction (`extract`, likewise a
serde derive). -/
def get_comic_post_decrypt {γ : Type} (parse : List Char → Option JVal)
    (extract : JVal → Option γ) (decrypted_data : List Char) : CallOutcome γ :=
  if raw_missing_comic decrypted_data then .notFound
  else
    match parse decrypted_data with
    | none =>
      if raw_missing_comic decrypted_data then .notFound else .internalErr
    | some comic_value =>
      if is_missing_comic comic_value then .notFound
      else
        match extract comic_value with
        | none => .internalErr
        | some comic => .ok comic

/-! ## Wrapped-response handling for login / album / chapter -/

/-- The wrapped upstream response `JmResp` after JSON deserialization. -/
structure JmResp where
  code : Int
  data : JVal
  error_msg : List Char

/-- `JmClient::login` from the HTTP status and parsed body on: `None`
stands for a body that failed to deserialize as `JmResp`. -/
def login_from_resp (status : Nat) (resp : Option JmResp) :
    CallOutcome Unit :=
  if status ≠ 200 then .internalErr
  else
    match resp with
    | none => .internalErr
    | some jm_resp =>
      if jm_resp.code ≠ 200 then .internalErr else .ok ()

/-- `JmClient::get_comic` from the HTTP status and parsed body on.  The
decryption step is abstracted as `decrypt` (it is exercised separately
by the `decrypt_data` embedding below); `parse`/`extract` as in
`get_comic_post_decrypt`. -/
def get_comic_from_resp {γ : Type} (parse : List Char → Option JVal)
    (extract : JVal → Option γ) (decrypt : List Char → Option (List Char))
    (status : Nat) (resp : Option JmResp) : CallOutcome γ :=
  if status = 404 then .notFound
  else if status ≠ 200 then .internalErr
  else
    match resp with
    | none => .internalErr
    | some jm_resp =>
      if jm_resp.code ≠ 200 then
        if jm_resp.code = 404 ∨
            containsSub ("not found".toList) (toLowerAscii jm_resp.error_msg)
        then .notFound
        else .internalErr
      else
        match jm_resp.data with
        | .str data =>
          match decrypt data with
          | none => .internalErr
          | some decrypted_data => get_comic_post_decrypt parse extract decrypted_data
        | _ => .internalErr

/-- `JmClient::get_chapter` from the HTTP status and parsed body on. -/
def get_chapter_from_resp {γ : Type} (extract : List Char → Option γ)
    (decrypt : List Char → Option (List Char)) (status : Nat)
    (resp : Option JmResp) : CallOutcome γ :=
  if status ≠ 200 then .internalErr
  else
    match resp with
    | none => .internalErr
    | some jm_resp =>
      if jm_resp.code ≠ 200 then .internalErr
      else
        match jm_resp.data with
        | .str data =>
          match decrypt data with
          | none => .internalErr
          | some decrypted_data =>
            match extract decrypted_data with
            | none => .internalErr
            | some chapter => .ok chapter
        | _ => .internalErr

/-! ## `decrypt_data` (src/jm_client.rs) -/

/-- Standard-alphabet Base-64 symbol values. -/
def b64val (c : Char) : Option Nat :=
  let n := c.toNat
  if 65 ≤ n ∧ n ≤ 90 then some (n - 65)
  else if 97 ≤ n ∧ n ≤ 122 then some (n - 97 + 26)
  else if 48 ≤ n ∧ n ≤ 57 then some (n - 48 + 52)
  else if c = '+' then some 62
  else if c = '/' then some 63
  else none

/-- `general_purpose::STANDARD.decode`: padded canonical Base-64 (group
length a multiple of four, `=` only at the end, zero trailing bits). -/
def base64_decode : List Char → Option (List Nat)
  | [] => some []
  | c1 :: c2 :: c3 :: c4 :: rest =>
    match b64val c1, b64val c2 with
    | some v1, some v2 =>
      if rest = [] ∧ c3 = '=' ∧ c4 = '=' then
        if v2 % 16 = 0 then some [v1 * 4 + v2 / 16] else none
      else if rest = [] ∧ c4 = '=' then
        match b64val c3 with
        | some v3 =>
          if v3 % 4 = 0 then
            some [v1 * 4 + v2 / 16, v2 % 16 * 16 + v3 / 4]
          else none
        | none => none
      else
        match b64val c3, b64val c4, base64_decode rest with
        | some v3, some v4, some tail =>
          some ((v1 * 4 + v2 / 16) :: (v2 % 16 * 16 + v3 / 4) ::
            (v3 % 4 * 64 + v4) :: tail)
        | _, _, _ => none
    | _, _ => none
  | _ => none

/-- The `chunks(16).map(GenericArray::clone_from_slice)` stage decrypting
each block with `cipher` (the AES-256 primitive of the `aes` crate,
abstracted as the block map `dec`): `none` models the panic that
`clone_from_slice` raises on a trailing chunk shorter than 16 bytes. -/
def decryptChunks (dec : List Nat → List Nat) (l : List Nat) :
    Option (List Nat) :=
  match l with
  | [] => some []
  | a :: t =>
    if (a :: t).length < 16 then none
    else
      match decryptChunks dec (List.drop 16 (a :: t)) with
      | some tail => some (dec (List.take 16 (a :: t)) ++ tail)
      | none => none
termination_by l.length
decreasing_by simp [List.length_drop]; omega

/-- UTF-8 validity of a byte sequence (`String::from_utf8`). -/
def validUtf8 (l : List Nat) : Bool :=
  match l with
  | [] => true
  | b :: t =>
    if b < 128 then validUtf8 t
    else if 194 ≤ b ∧ b ≤ 223 then
      match t with
      | b2 :: t2 => 128 ≤ b2 && b2 ≤ 191 && validUtf8 t2
      | _ => false
    else if 224 ≤ b ∧ b ≤ 239 then
      match t with
      | b2 :: b3 :: t3 =>
        (if b = 224 then 160 ≤ b2 && b2 ≤ 191
         else if b = 237 then 128 ≤ b2 && b2 ≤ 159
         else 128 ≤ b2 && b2 ≤ 191) &&
          (128 ≤ b3 && b3 ≤ 191) && validUtf8 t3
      | _ => false
    else if 240 ≤ b ∧ b ≤ 244 then
      match t with
      | b2 :: b3 :: b4 :: t4 =>
        (if b = 240 then 144 ≤ b2 && b2 ≤ 191
         else if b = 244 then 128 ≤ b2 && b2 ≤ 143
         else 128 ≤ b2 && b2 ≤ 191) &&
          (128 ≤ b3 && b3 ≤ 191) && (128 ≤ b4 && b4 ≤ 191) && validUtf8 t4
      | _ => false
    else false
termination_by l.length
decreasing_by all_goals (simp; try omega)

/-- Result of `decrypt_data`: distinguishing a normal `AppError::Internal`
return from a Rust panic (`unwrap` on an empty buffer, a
`clone_from_slice` length mismatch, or the unchecked
`len - padding_length` slice bound). -/
inductive DecryptOutcome where
  | ok : List Nat → DecryptOutcome
  | internalErr : DecryptOutcome
  | panicked : DecryptOutcome
deriving DecidableEq

/-- The AES-256-ECB key of `decrypt_data`: the hex MD5 of
`{ts}185Hcomic3PAPP7R`, used as 32 ASCII bytes. -/
def decryptKey (ts : Nat) : List Nat :=
  strBytes (md5Hex (strBytes ((toString ts).toList ++
    "185Hcomic3PAPP7R".toList)))

/-- Embedding of `decrypt_data(ts, data)`.  `aes` abstracts
`Aes256::decrypt_block` of the `aes` crate (keyed by the first
argument); the successful result carries the UTF-8 bytes of the
decrypted string. -/
def decrypt_data (aes : List Nat → List Nat → List Nat) (ts : Nat)
    (data : List Char) : DecryptOutcome :=
  match base64_decode data with
  | none => .internalErr
  | some aes256_ecb_encrypted_data =>
    let key := decryptKey ts
    match decryptChunks (aes key) aes256_ecb_encrypted_data with
    | none => .panicked
    | some decrypted_data_with_padding =>
      match decrypted_data_with_padding.getLast? with
      | none => .panicked
      | some padding_length =>
        if decrypted_data_with_padding.length < padding_length then .panicked
        else
          let decrypted_data_without_padding :=
            decrypted_data_with_padding.take
              (decrypted_data_with_padding.length - padding_length)
          if validUtf8 decrypted_data_without_padding then
            .ok decrypted_data_without_padding
          else .internalErr

/-! ## `GlobalJmClient` (src/global_client.rs) -/

/-- `AppError` (src/lib.rs): a kind plus its display message. -/
inductive ErrKind where
  | badRequest | notFound | unauthorized | forbidden | internal
deriving DecidableEq

structure AppErr where
  kind : ErrKind
  msg : List Char
deriving DecidableEq

/-- Embedding of `is_auth_error(error)`; `error.to_string()` is the
carried message for every `AppError` variant. -/
def is_auth_error (error : AppErr) : Bool :=
  let error_msg := toLowerAscii error.msg
  containsSub ("unauthorized".toList) error_msg ||
    containsSub ("401".toList) error_msg ||
    containsSub ("登录".toList) error_msg ||
    containsSub ("认证".toList) error_msg ||
    containsSub ("session".toList) error_msg ||
    containsSub ("cookie".toList) error_msg ||
    containsSub ("code 401".toList) error_msg ||
    containsSub ("code 403".toList) error_msg

deriving instance DecidableEq for Except

/-- Observable trace of one session-manager business call. -/
structure CallTrace (V : Type) where
  result : Except AppErr V
  loginAttempts : Nat
  protocolCalls : Nat
  markedInvalid : Bool
deriving DecidableEq

/-- The shared body of `GlobalJmClient::{get_comic, get_chapter,
get_scramble_id}` after the entry `get_client` succeeded: first
protocol attempt, auth-error classification, re-login, single retry.
`logins i` / `calls i` are the outcomes the upstream would give to the
`i`-th login / protocol attempt of this invocation. -/
def global_call_main {V : Type} (loginsUsed : Nat)
    (logins : Nat → Except AppErr Unit) (calls : Nat → Except AppErr V) :
    CallTrace V :=
  match calls 0 with
  | .ok result => ⟨.ok result, loginsUsed, 1, false⟩
  | .error e =>
    if is_auth_error e then
      match logins loginsUsed with
      | .error le => ⟨.error le, loginsUsed + 1, 1, true⟩
      | .ok () => ⟨calls 1, loginsUsed + 1, 2, true⟩
    else ⟨.error e, loginsUsed, 1, false⟩

/-- A full session-manager business call, including the entry
`get_client → ensure_session_valid` re-login when the validity flag
`flag0` starts out `false`. -/
def global_call {V : Type} (flag0 : Bool)
    (logins : Nat → Except AppErr Unit) (calls : Nat → Except AppErr V) :
    CallTrace V :=
  if flag0 then global_call_main 0 logins calls
  else
    match logins 0 with
    | .error e => ⟨.error e, 1, 0, false⟩
    | .ok () => global_call_main 1 logins calls

/-! ## Download orchestration (src/handlers.rs) -/

/-- `format!("{:04}", n)`: decimal with zero padding to width 4. -/
def pad4 (n : Nat) : List Char :=
  let s := (toString n).toList
  List.replicate (4 - s.length) '0' ++ s

/-- `format!("{:04}.png", index + 1)`. -/
def save_filename (index : Nat) : List Char := pad4 (index + 1) ++ ".png".toList

/-- `format!("download/{}/{}/{}", comic_id, chapter_id, save_filename)`. -/
def relative_path (comic_id chapter_id : Int) (index : Nat) : List Char :=
  "download/".toList ++ (toString comic_id).toList ++ "/".toList ++
    (toString chapter_id).toList ++ "/".toList ++ save_filename index

/-- One spawned page task of `download_chapter`: the
`tokio::fs::metadata` existence probe decides between the cache-hit
return and the download-then-process path.  `download` and `process`
are the outcomes the network fetch (`download_image`) and the decoding
pipeline (`process_and_save_image`) would produce; the second component
records whether the network fetch was performed. -/
def page_task (exists_on_disk : Bool) (download process : Except AppErr Unit)
    (index : Nat) (rel : List Char) :
    Except AppErr (Nat × List Char) × Bool :=
  if exists_on_disk then (.ok (index, rel), false)
  else
    match download with
    | .error e => (.error e, true)
    | .ok () =>
      match process with
      | .error e => (.error e, true)
      | .ok () => (.ok (index, rel), true)

/-- The `join_next` collection loop: fold the task results in completion
order, stopping at the first failure. -/
def collect_results (l : List (Except AppErr (Nat × List Char) × Bool)) :
    Except AppErr (List (Nat × List Char)) :=
  match l with
  | [] => .ok []
  | (r, _) :: t =>
    match r with
    | .error e => .error e
    | .ok p =>
      match collect_results t with
      | .error e => .error e
      | .ok ps => .ok (p :: ps)

/-- `images.sort_by_key(|(index, _)| *index)` followed by dropping the
keys. -/
def sort_and_strip (images : List (Nat × List Char)) : List (List Char) :=
  (images.mergeSort fun a b => a.1 ≤ b.1).map (·.2)

/-- One chapter of `download_chapter` from the fan-out on: `m` pages,
`completion` the order in which the concurrent tasks are joined,
`exists_on_disk`/`downloads`/`processes` the per-page environment.
Returns the chapter image list (or the first error) together with the
number of network fetches performed. -/
def run_chapter (comic_id chapter_id : Int) (m : Nat)
    (exists_on_disk : Nat → Bool) (downloads processes : Nat → Except AppErr Unit)
    (completion : List Nat) :
    Except AppErr (List (List Char)) × Nat :=
  let tasks := completion.map fun index =>
    page_task (exists_on_disk index) (downloads index) (processes index)
      index (relative_path comic_id chapter_id index)
  let fetches := (tasks.filter (·.2)).length
  match collect_results tasks with
  | .error e => (.error e, fetches)
  | .ok images => (.ok (sort_and_strip images), fetches)

/-- `SingleChapterData` (src/models.rs), restricted to the fields the
claims quantify over. -/
structure SingleChapterData where
  chapter_id : Int
  images : List (List Char)
deriving DecidableEq

/-- The per-request chapter loop of `download_chapter`: chapters are
processed and appended in the order of `chapter_ids`. -/
def download_chapters (comic_id : Int) (chapter_ids : List Int)
    (manifest_len : Int → Nat) (exists_on_disk : Int → Nat → Bool)
    (downloads processes : Int → Nat → Except AppErr Unit)
    (completion : Int → List Nat) : List SingleChapterData :=
  chapter_ids.map fun chapter_id =>
    { chapter_id := chapter_id
      images :=
        match (run_chapter comic_id chapter_id (manifest_len chapter_id)
            (exists_on_disk chapter_id) (downloads chapter_id)
            (processes chapter_id) (completion chapter_id)).1 with
        | .ok images => images
        | .error _ => [] }

/-! ## `schedule_delete_dir` (src/handlers.rs) and request defaults
(src/models.rs) -/

/-- What `schedule_delete_dir` schedules: either nothing, or a detached
background task that sleeps `delaySeconds` and then removes the
directory recursively. -/
inductive DeleteAction where
  | noTask : DeleteAction
  | removeAfter : Nat → DeleteAction
deriving DecidableEq

/-- Embedding of `schedule_delete_dir(path, expire_seconds)`: negative
expiry returns without spawning; otherwise a task is spawned whose only
wait is the `expire_seconds > 0` sleep. -/
def schedule_delete_dir (expire_seconds : Int) : DeleteAction :=
  if expire_seconds < 0 then .noTask else .removeAfter expire_seconds.toNat

/-- What the spawned deletion task logs. -/
inductive DeleteLog where
  | deleted : DeleteLog
  | warnFailed : DeleteLog
deriving DecidableEq

/-- The body of the spawned task after the sleep: both the
`remove_dir_all` error and the blocking-task join error are logged, and
the task returns nothing — failures cannot propagate to any caller. -/
def delete_task_log (remove_result : Except (List Char) Unit)
    (join_ok : Bool) : DeleteLog :=
  if join_ok then
    match remove_result with
    | .ok () => .deleted
    | .error _ => .warnFailed
  else .warnFailed

/-- `default_expire_seconds()` (src/models.rs). -/
def default_expire_seconds : Int := 600

/-- `DownloadChapterRequest` after serde deserialization; the
`expire_seconds` field is modelled by its presence in the JSON body
(`none` = omitted), resolved through `#[serde(default =
"default_expire_seconds")]`. -/
structure DownloadChapterRequest where
  comic_id : Int
  chapter_ids : List Int
  expire_seconds : Int
deriving DecidableEq

def mkDownloadChapterRequest (comic_id : Int) (chapter_ids : List Int)
    (expire_field : Option Int) : DownloadChapterRequest :=
  { comic_id := comic_id
    chapter_ids := chapter_ids
    expire_seconds := expire_field.getD default_expire_seconds }

/-- `DownloadComicRequest` after serde deserialization (same defaulting
for `expire_seconds`; `merge` defaults to `false`, `encrypt` to
`None`). -/
structure DownloadComicRequest where
  comic_id : Int
  merge : Bool
  encrypt : Option (List Char)
  expire_seconds : Int
deriving DecidableEq

def mkDownloadComicRequest (comic_id : Int) (merge_field : Option Bool)
    (encrypt_field : Option (Option (List Char)))
    (expire_field : Option Int) : DownloadComicRequest :=
  { comic_id := comic_id
    merge := merge_field.getD false
    encrypt := encrypt_field.getD none
    expire_seconds := expire_field.getD default_expire_seconds }

/-- Rows of the destination covered after the first `k` iterations of the
outer `stitch_img` loop. -/
def coveredEnd (height block_num k : Nat) : Nat :=
  if k = 0 then 0 else height / block_num * k + height % block_num

/-! ## Theorems -/

/-- C9: `schedule_delete_dir` does nothing for `-1`, schedules an
immediate background removal for `0`, a removal delayed by `n` seconds
for `n > 0`, and the spawned task only ever logs — success or failure —
so removal errors cannot propagate. -/
theorem schedule_delete_spec :
    schedule_delete_dir (-1) = DeleteAction.noTask ∧
    schedule_delete_dir 0 = DeleteAction.removeAfter 0 ∧
    (∀ n : Nat, schedule_delete_dir (n : Int) = DeleteAction.removeAfter n) ∧
    (∀ (r : Except (List Char) Unit) (j : Bool),
      delete_task_log r j = DeleteLog.deleted ∨
        delete_task_log r j = DeleteLog.warnFailed) := by
  refine ⟨rfl, rfl, fun n => ?_, fun r j => ?_⟩
  · simp [schedule_delete_dir]
  · cases j <;> cases r <;> simp [delete_task_log]

/-- C10: an omitted `expire_seconds` field deserializes to
`default_expire_seconds() = 600` on both download requests, so the
chapter directory is scheduled for recursive removal 600 seconds after
the download finishes. -/
theorem default_expire_spec :
    default_expire_seconds = 600 ∧
    (∀ (comic_id : Int) (chapter_ids : List Int),
      (mkDownloadChapterRequest comic_id chapter_ids none).expire_seconds = 600) ∧
    (∀ comic_id : Int,
      (mkDownloadComicRequest comic_id none none none).expire_seconds = 600) ∧
    schedule_delete_dir default_expire_seconds = DeleteAction.removeAfter 600 := by
  exact ⟨rfl, fun _ _ => rfl, fun _ => rfl, rfl⟩

/-- C6: with a valid session, a failing protocol call whose message is
authentication-class (per `is_auth_error`) marks the session invalid,
re-logs-in and retries exactly once — the retry outcome (or the
re-login failure) is propagated untouched — while a non-matching error
is propagated with no re-login at all. -/
theorem session_retry_spec {V : Type} (logins : Nat → Except AppErr Unit)
    (calls : Nat → Except AppErr V) (e : AppErr)
    (hfail : calls 0 = .error e) :
    (is_auth_error e = false →
      global_call true logins calls = ⟨.error e, 0, 1, false⟩) ∧
    (is_auth_error e = true → ∀ le, logins 0 = .error le →
      global_call true logins calls = ⟨.error le, 1, 1, true⟩) ∧
    (is_auth_error e = true → logins 0 = .ok () →
      global_call true logins calls = ⟨calls 1, 1, 2, true⟩) := by
  refine ⟨fun hne => ?_, fun ha le hle => ?_, fun ha hok => ?_⟩
  · simp [global_call, global_call_main, hfail, hne]
  · simp [global_call, global_call_main, hfail, ha, hle]
  · simp [global_call, global_call_main, hfail, ha, hok]

/-- C6 witness: an `Internal` error containing `unauthorized` triggers
one re-login and one retry whose result is returned as-is. -/
theorem session_retry_spec_witness :
    global_call true (fun _ => Except.ok ())
        (fun i => if i = 0 then
            Except.error ⟨ErrKind.internal, "unauthorized".toList⟩
          else Except.ok 7) =
      ⟨Except.ok 7, 1, 2, true⟩ := by
  have h := (session_retry_spec (fun _ => Except.ok ())
    (fun i => if i = 0 then
        Except.error ⟨ErrKind.internal, "unauthorized".toList⟩
      else Except.ok 7)
    ⟨ErrKind.internal, "unauthorized".toList⟩ rfl).2.2 (by decide) rfl
  simpa using h

/-- C5 counterexample: a chapter response with HTTP 200 and wrapped
`code = 404` (and an `error_msg` containing `not found`) surfaces
`Internal`, not `NotFound` — refuting the claim that all three wrapped
calls map these to `NotFound`. -/
theorem chapter_404_is_internal :
    get_chapter_from_resp (fun _ => (none : Option Unit)) (fun _ => none) 200
        (some ⟨404, JVal.null, "not found".toList⟩) =
      CallOutcome.internalErr ∧
    get_chapter_from_resp (fun _ => (none : Option Unit)) (fun _ => none) 200
        (some ⟨404, JVal.null, "not found".toList⟩) ≠
      CallOutcome.notFound := by
  refine ⟨rfl, fun h => nomatch h⟩

/-- C5 (amended): only the album call maps a wrapped `code = 404`, or an
`error_msg` whose lowercase form contains `not found`, to `NotFound`
(and only when `code ≠ 200`); the login and chapter calls surface
`Internal` for every non-200 wrapped code. -/
theorem wrapped_resp_amended {γ : Type} (parse : List Char → Option JVal)
    (extract : JVal → Option γ) (extractCh : List Char → Option γ)
    (decrypt : List Char → Option (List Char)) (r : JmResp)
    (hcode : r.code ≠ 200) :
    ((r.code = 404 ∨
        containsSub ("not found".toList) (toLowerAscii r.error_msg) = true) →
      get_comic_from_resp parse extract decrypt 200 (some r) =
        CallOutcome.notFound) ∧
    (¬(r.code = 404 ∨
        containsSub ("not found".toList) (toLowerAscii r.error_msg) = true) →
      get_comic_from_resp parse extract decrypt 200 (some r) =
        CallOutcome.internalErr) ∧
    get_chapter_from_resp extractCh decrypt 200 (some r) =
      CallOutcome.internalErr ∧
    login_from_resp 200 (some r) = CallOutcome.internalErr := by
  refine ⟨fun h => ?_, fun h => ?_, ?_, ?_⟩
  · rcases h with h | h
    · simp [get_comic_from_resp, hcode, h]
    · simp [get_comic_from_resp, hcode]
      intro _
      simpa using h
  · push_neg at h
    have h2 : containsSub ("not found".toList) (toLowerAscii r.error_msg) = false := by
      simpa using h.2
    simp [get_comic_from_resp, hcode, h.1]
    simpa using h2
  · simp [get_chapter_from_resp, hcode]
  · simp [login_from_resp, hcode]

/-- C5 witness: the album call with wrapped `code = 404` yields
`NotFound`. -/
theorem wrapped_resp_amended_witness :
    get_comic_from_resp (fun _ => none) (fun _ => (none : Option Unit))
        (fun _ => none) 200 (some ⟨404, JVal.null, []⟩) =
      CallOutcome.notFound :=
  (wrapped_resp_amended (fun _ => none) (fun _ => (none : Option Unit))
    (fun _ => none) (fun _ => none) ⟨404, JVal.null, []⟩ (by decide)).1
    (Or.inl rfl)

/-- C3: after decrypting an album response the call surfaces `NotFound`
whenever the `name` field is absent, null, or blank: the raw textual
scan (`raw_missing_comic`) forces `NotFound` before — and even without —
a successful JSON parse, and `is_missing_comic` on the parsed object
forces `NotFound` as well; `is_missing_comic` holds exactly when `name`
is absent, null, or trims to the empty string. -/
theorem missing_comic_detection_spec {γ : Type}
    (parse : List Char → Option JVal) (extract : JVal → Option γ)
    (decrypt : List Char → Option (List Char)) (r : JmResp)
    (data dd : List Char) (hcode : r.code = 200) (hdata : r.data = .str data)
    (hdec : decrypt data = some dd) :
    (raw_missing_comic dd = true →
      get_comic_post_decrypt parse extract dd = CallOutcome.notFound ∧
      get_comic_from_resp parse extract decrypt 200 (some r) =
        CallOutcome.notFound) ∧
    (∀ v, parse dd = some v → is_missing_comic v = true →
      get_comic_from_resp parse extract decrypt 200 (some r) =
        CallOutcome.notFound) ∧
    (∀ v, is_missing_comic v = true ↔
      (jget v ("name".toList) = none ∨
       jget v ("name".toList) = some JVal.null ∨
       ∃ s, jget v ("name".toList) = some (JVal.str s) ∧
         (rustTrim s).isEmpty = true)) := by
  have hred : get_comic_from_resp parse extract decrypt 200 (some r) =
      get_comic_post_decrypt parse extract dd := by
    simp [get_comic_from_resp, hcode, hdata, hdec]
  refine ⟨fun hraw => ⟨?_, ?_⟩, fun v hv hmiss => ?_, fun v => ?_⟩
  · simp [get_comic_post_decrypt, hraw]
  · rw [hred]; simp [get_comic_post_decrypt, hraw]
  · rw [hred]
    by_cases hraw : raw_missing_comic dd <;>
      simp [get_comic_post_decrypt, hraw, hv, hmiss]
  · unfold is_missing_comic
    cases hj : jget v ("name".toList) with
    | none => simp
    | some w => cases w <;> simp

/-- C3 witness: a decrypted body containing `"name":null` — not even
well-formed JSON here — makes the album call return `NotFound`. -/
theorem missing_comic_detection_spec_witness :
    raw_missing_comic ("\"name\":null".toList) = true ∧
    get_comic_from_resp (fun _ => none) (fun _ => (none : Option Unit))
        (fun _ => some ("\"name\":null".toList)) 200
        (some ⟨200, JVal.str [], []⟩) =
      CallOutcome.notFound :=
  ⟨by decide,
    ((missing_comic_detection_spec (fun _ => none)
      (fun _ => (none : Option Unit)) (fun _ => some ("\"name\":null".toList))
      ⟨200, JVal.str [], []⟩ [] ("\"name\":null".toList) rfl rfl rfl).1
      (by decide)).2⟩

/-- A ciphertext whose length is not a multiple of 16 makes the
chunk-decryption stage panic (`clone_from_slice` on a short slice). -/
theorem decryptChunks_none_of_mod (dec : List Nat → List Nat) :
    ∀ l : List Nat, l.length % 16 ≠ 0 → decryptChunks dec l = none := by
  intro l
  induction l using decryptChunks.induct dec with
  | case1 => simp
  | case2 a t hlen =>
    intro h
    rw [decryptChunks]
    simp only [List.length_cons] at hlen h
    simp
    intro hge
    omega
  | case3 a t hlen tail heq ih =>
    intro h
    have hd : (List.drop 16 (a :: t)).length % 16 ≠ 0 := by
      rw [List.length_drop]
      simp only [List.length_cons] at h hlen ⊢
      omega
    rw [ih hd] at heq
    exact nomatch heq
  | case4 a t hlen heq ih =>
    intro h
    rw [decryptChunks]
    simp only [List.drop_succ_cons] at heq
    simp [hlen, heq]

/-- C4 (amended): `decrypt_data` returns the decrypted UTF-8 string on
success and `Internal` on a Base-64 or UTF-8 failure, but it panics —
rather than failing with `Internal` — when the decoded ciphertext is
empty, when its length is not a multiple of 16, or when the padding
length read from the last decrypted byte exceeds the decrypted length. -/
theorem decrypt_data_amended (aes : List Nat → List Nat → List Nat)
    (ts : Nat) (data : List Char) :
    (base64_decode data = none →
      decrypt_data aes ts data = DecryptOutcome.internalErr) ∧
    (base64_decode data = some [] →
      decrypt_data aes ts data = DecryptOutcome.panicked) ∧
    (∀ bs, base64_decode data = some bs → bs.length % 16 ≠ 0 →
      decrypt_data aes ts data = DecryptOutcome.panicked) ∧
    (∀ bs plain pad, base64_decode data = some bs →
      decryptChunks (aes (decryptKey ts)) bs = some plain →
      plain.getLast? = some pad → plain.length < pad →
      decrypt_data aes ts data = DecryptOutcome.panicked) ∧
    (∀ bs plain pad, base64_decode data = some bs →
      decryptChunks (aes (decryptKey ts)) bs = some plain →
      plain.getLast? = some pad → pad ≤ plain.length →
      decrypt_data aes ts data =
        if validUtf8 (plain.take (plain.length - pad)) = true then
          DecryptOutcome.ok (plain.take (plain.length - pad))
        else DecryptOutcome.internalErr) := by
  refine ⟨fun h => ?_, fun h => ?_, fun bs h hm => ?_,
    fun bs plain pad h hc hl hp => ?_, fun bs plain pad h hc hl hp => ?_⟩
  · simp [decrypt_data, h]
  · simp [decrypt_data, h, decryptChunks]
  · simp [decrypt_data, h,
      decryptChunks_none_of_mod (aes (decryptKey ts)) bs hm]
  · simp [decrypt_data, h, hc, hl, hp]
  · simp only [decrypt_data, h, hc, hl]
    rw [if_neg (by omega)]

/-- C4 counterexample: on the empty Base-64 input the code reaches
`.last().unwrap()` on an empty buffer and panics instead of returning
an `Internal` error. -/
theorem decrypt_data_panics_on_empty :
    decrypt_data (fun _ block => block) 0 [] = DecryptOutcome.panicked ∧
    DecryptOutcome.panicked ≠ DecryptOutcome.internalErr := by
  refine ⟨by simp [decrypt_data, base64_decode, decryptChunks], fun h => nomatch h⟩

/-- C4 witness: the amended theorem applied to the empty ciphertext. -/
theorem decrypt_data_amended_witness :
    decrypt_data (fun _ block => block) 5 [] = DecryptOutcome.panicked :=
  (decrypt_data_amended (fun _ block => block) 5 []).2.1 rfl

/-- C1: `calculate_block_num` returns `0` below the scramble id, `10`
below chapter 268850, and otherwise `(c mod x) * 2 + 2` where `c` is
the ASCII code point of the last character of
`md5_hex(decimal(chapter_id) ++ stem)` — the stem dropping the last
dot-extension — and `x` is `10` below chapter 421926 and `8` from there
on; consequently the result is `0`, `10`, or an even number of
`[2, 2x]`. -/
theorem calculate_block_num_spec (scramble_id chapter_id : Int)
    (filename : List Char) :
    (chapter_id < scramble_id →
      calculate_block_num scramble_id chapter_id filename = 0) ∧
    (scramble_id ≤ chapter_id → chapter_id < 268850 →
      calculate_block_num scramble_id chapter_id filename = 10) ∧
    (scramble_id ≤ chapter_id → 268850 ≤ chapter_id →
      calculate_block_num scramble_id chapter_id filename =
        ((md5Hex (strBytes ((toString chapter_id).toList ++
            (rsplitOnceStem filename).getD filename))).getLastD 'a').toNat %
          (if chapter_id < 421926 then 10 else 8) * 2 + 2) ∧
    (calculate_block_num scramble_id chapter_id filename = 0 ∨
     calculate_block_num scramble_id chapter_id filename = 10 ∨
     ∃ k, k < (if chapter_id < 421926 then (10 : Nat) else 8) ∧
       calculate_block_num scramble_id chapter_id filename = k * 2 + 2) := by
  refine ⟨fun h1 => ?_, fun hge h2 => ?_, fun hge h3 => ?_, ?_⟩
  · simp [calculate_block_num, h1]
  · have hn1 : ¬chapter_id < scramble_id := not_lt.mpr hge
    simp [calculate_block_num, hn1, h2]
  · have hn1 : ¬chapter_id < scramble_id := not_lt.mpr hge
    have hn2 : ¬chapter_id < 268850 := by omega
    simp [calculate_block_num, hn1, hn2]
  · by_cases h1 : chapter_id < scramble_id
    · exact Or.inl (by simp [calculate_block_num, h1])
    · by_cases h2 : chapter_id < 268850
      · exact Or.inr (Or.inl (by simp [calculate_block_num, h1, h2]))
      · refine Or.inr (Or.inr
          ⟨((md5Hex (strBytes ((toString chapter_id).toList ++
              (rsplitOnceStem filename).getD filename))).getLastD 'a').toNat %
            (if chapter_id < 421926 then 10 else 8), ?_, ?_⟩)
        · exact Nat.mod_lt _ (by split <;> norm_num)
        · simp [calculate_block_num, h1, h2]

/-- C1 witness: concrete chapters in the first two regimes. -/
theorem calculate_block_num_spec_witness :
    ((100 : Int) < 220980 ∧
      calculate_block_num 220980 100 ("a.webp".toList) = 0) ∧
    ((220980 : Int) ≤ 250000 ∧ (250000 : Int) < 268850 ∧
      calculate_block_num 220980 250000 ("a.webp".toList) = 10) :=
  ⟨⟨by decide, (calculate_block_num_spec 220980 100 ("a.webp".toList)).1
      (by decide)⟩,
   ⟨by decide, by decide,
    (calculate_block_num_spec 220980 250000 ("a.webp".toList)).2.1
      (by decide) (by decide)⟩⟩

/-- A page task that returns `ok` always carries its own index and
relative path. -/
theorem page_task_ok_payload (ex : Bool) (d p : Except AppErr Unit) (i : Nat)
    (r : List Char) (pr : Nat × List Char) (b : Bool)
    (h : page_task ex d p i r = (.ok pr, b)) : pr = (i, r) := by
  unfold page_task at h
  cases ex with
  | true =>
    rw [if_pos rfl] at h
    exact (Except.ok.inj (congrArg Prod.fst h)).symm
  | false =>
    rw [if_neg (by simp)] at h
    cases d with
    | error e => exact absurd (congrArg Prod.fst h) (by simp)
    | ok u =>
      cases u
      cases p with
      | error e => exact absurd (congrArg Prod.fst h) (by simp)
      | ok u2 =>
        cases u2
        exact (Except.ok.inj (congrArg Prod.fst h)).symm

/-- Collecting a list of all-`ok` tasks yields their payloads in
completion order. -/
theorem collect_results_map (F : Nat → Nat × List Char)
    (task : Nat → Except AppErr (Nat × List Char) × Bool)
    (hok : ∀ i, task i = (.ok (F i), false)) :
    ∀ l : List Nat, collect_results (l.map task) = .ok (l.map F) := by
  intro l
  induction l with
  | nil => rfl
  | cons a t ih => simp [collect_results, hok a, ih]

/-- Conversely, a successful collection forces every payload. -/
theorem collect_results_ok_inv
    (task : Nat → Except AppErr (Nat × List Char) × Bool)
    (F : Nat → Nat × List Char)
    (hpayload : ∀ i pr b, task i = (.ok pr, b) → pr = F i) :
    ∀ (l : List Nat) (images : List (Nat × List Char)),
      collect_results (l.map task) = .ok images → images = l.map F := by
  intro l
  induction l with
  | nil =>
    intro images h
    simpa [collect_results] using h.symm
  | cons a t ih =>
    intro images h
    rcases htask : task a with ⟨r, b⟩
    rw [List.map_cons, htask] at h
    cases r with
    | error e => simp [collect_results] at h
    | ok pr =>
      rcases hrest : collect_results (t.map task) with e | ps
      · rw [collect_results, hrest] at h
        simp at h
      · rw [collect_results, hrest] at h
        simp only [Except.ok.injEq] at h
        simp only [List.map_cons]
        rw [← h, hpayload a pr b htask, ih ps hrest]

/-- Sorting pairs `(i, rel i)` drawn from any permutation of
`range m` by their first component recovers the canonical order. -/
theorem mergeSort_pairs_canonical (rel : Nat → List Char) (m : Nat)
    (l : List Nat) (hp : l.Perm (List.range m)) :
    (l.map fun i => (i, rel i)).mergeSort (fun a b => a.1 ≤ b.1) =
      (List.range m).map fun i => (i, rel i) := by
  have hperm : ((l.map fun i => (i, rel i)).mergeSort
      (fun a b => a.1 ≤ b.1)).Perm ((List.range m).map fun i => (i, rel i)) :=
    (List.mergeSort_perm _ _).trans (hp.map _)
  have hsorted := @List.sorted_mergeSort (Nat × List Char)
    (fun a b => decide (a.1 ≤ b.1))
    (fun a b c hab hbc => by
      simp only [decide_eq_true_eq] at hab hbc ⊢
      omega)
    (fun a b => by
      simp only [Bool.or_eq_true, decide_eq_true_eq]
      exact Nat.le_total _ _)
    (l.map fun i => (i, rel i))
  have hkeysperm : (((l.map fun i => (i, rel i)).mergeSort
      (fun a b => a.1 ≤ b.1)).map Prod.fst).Perm (List.range m) := by
    have h0 := hperm.map Prod.fst
    simpa [List.map_map, Function.comp_def] using h0
  have hkeyssorted : List.Sorted (· ≤ ·)
      (((l.map fun i => (i, rel i)).mergeSort
        (fun a b => a.1 ≤ b.1)).map Prod.fst) :=
    List.Pairwise.map Prod.fst
      (fun hab => by simpa using hab) hsorted
  have hrangesorted : List.Sorted (· ≤ ·) (List.range m) :=
    (List.pairwise_lt_range m).imp Nat.le_of_lt
  have hkeys : ((l.map fun i => (i, rel i)).mergeSort
      (fun a b => a.1 ≤ b.1)).map Prod.fst = List.range m :=
    List.eq_of_perm_of_sorted hkeysperm hkeyssorted hrangesorted
  have hmem : ∀ q ∈ (l.map fun i => (i, rel i)).mergeSort
      (fun a b => a.1 ≤ b.1), q = (q.1, rel q.1) := by
    intro q hq
    have hq2 : q ∈ l.map fun i => (i, rel i) :=
      (List.mergeSort_perm _ _).subset hq
    rcases List.mem_map.mp hq2 with ⟨i, -, rfl⟩
    rfl
  have h1 : (l.map fun i => (i, rel i)).mergeSort (fun a b => a.1 ≤ b.1) =
      ((l.map fun i => (i, rel i)).mergeSort
        (fun a b => a.1 ≤ b.1)).map (fun q => (q.1, rel q.1)) := by
    have h0 := List.map_congr_left (f := id)
      (g := fun q : Nat × List Char => (q.1, rel q.1))
      (fun q hq => (hmem q hq).symm ▸ rfl)
    rw [List.map_id] at h0
    exact h0
  rw [h1, show (fun q : Nat × List Char => (q.1, rel q.1)) =
    ((fun i => (i, rel i)) ∘ Prod.fst) from rfl, ← List.map_map, hkeys]

/-- A chapter whose pages are all cached: every task is a cache hit, no
fetch happens, and the canonical ordered list is produced. -/
theorem run_chapter_cached (comic_id chapter_id : Int) (m : Nat)
    (ex : Nat → Bool) (dl pr : Nat → Except AppErr Unit)
    (completion : List Nat) (hex : ∀ i ∈ completion, ex i = true)
    (hp : completion.Perm (List.range m)) :
    run_chapter comic_id chapter_id m ex dl pr completion =
      (.ok ((List.range m).map (relative_path comic_id chapter_id)), 0) := by
  simp only [run_chapter]
  have htasks : completion.map (fun index =>
      page_task (ex index) (dl index) (pr index) index
        (relative_path comic_id chapter_id index)) =
      completion.map (fun i =>
        (Except.ok (i, relative_path comic_id chapter_id i), false)) :=
    List.map_congr_left fun i hi => by rw [hex i hi]; rfl
  have hcol := collect_results_map
    (fun i => (i, relative_path comic_id chapter_id i))
    (fun i => (Except.ok (i, relative_path comic_id chapter_id i), false))
    (fun _ => rfl) completion
  have hfil : (completion.map (fun i =>
      ((Except.ok (i, relative_path comic_id chapter_id i) :
        Except AppErr (Nat × List Char)), false))).filter (·.2) = [] := by
    rw [List.filter_eq_nil]
    intro a ha
    rcases List.mem_map.mp ha with ⟨i, -, rfl⟩
    simp
  rw [htasks, hcol, hfil]
  have hsort := mergeSort_pairs_canonical (relative_path comic_id chapter_id) m
    completion hp
  simp only [sort_and_strip, hsort, List.map_map, List.length_nil]
  rfl

/-- C7: chapters appear in the response in the order the caller supplied
their ids, and any chapter whose task collection succeeded carries
exactly `manifest length` images, sorted by page index into
`0001.png, 0002.png, …` relative paths — whatever the completion order
of the concurrent page tasks was. -/
theorem download_order_spec (comic_id chapter_id : Int)
    (chapter_ids : List Int) (manifest_len : Int → Nat)
    (ex : Int → Nat → Bool) (dl pr : Int → Nat → Except AppErr Unit)
    (completion : Int → List Nat) (m : Nat) (exc : Nat → Bool)
    (dlc prc : Nat → Except AppErr Unit) (compl : List Nat)
    (imgs : List (List Char)) (hp : compl.Perm (List.range m))
    (hok : (run_chapter comic_id chapter_id m exc dlc prc compl).1 =
      .ok imgs) :
    ((download_chapters comic_id chapter_ids manifest_len ex dl pr
        completion).map (·.chapter_id) = chapter_ids) ∧
    imgs = (List.range m).map (relative_path comic_id chapter_id) ∧
    imgs.length = m := by
  have himgs : imgs = (List.range m).map (relative_path comic_id chapter_id) := by
    simp only [run_chapter] at hok
    rcases hcol : collect_results (compl.map fun index =>
        page_task (exc index) (dlc index) (prc index) index
          (relative_path comic_id chapter_id index)) with e | images
    · rw [hcol] at hok
      exact nomatch (show Except.error e = Except.ok imgs from hok)
    · rw [hcol] at hok
      have hok2 : sort_and_strip images = imgs :=
        Except.ok.inj (show Except.ok (sort_and_strip images) =
          Except.ok imgs from hok)
      have himages := collect_results_ok_inv
        (fun index => page_task (exc index) (dlc index) (prc index) index
          (relative_path comic_id chapter_id index))
        (fun i => (i, relative_path comic_id chapter_id i))
        (fun i pr2 b h => page_task_ok_payload (exc i) (dlc i) (prc i) i
          (relative_path comic_id chapter_id i) pr2 b h)
        compl images hcol
      have hsort := mergeSort_pairs_canonical
        (relative_path comic_id chapter_id) m compl hp
      rw [← hok2, himages]
      simp only [sort_and_strip, hsort, List.map_map]
      rfl
  refine ⟨?_, himgs, ?_⟩
  · simp [download_chapters, List.map_map, Function.comp_def]
  · rw [himgs]
    simp

/-- C7 witness: two chapters, a two-page manifest, completion order
`[1, 0]` — the response still lists chapters `5, 6` in caller order and
pages `0001.png, 0002.png` in index order. -/
theorem download_order_spec_witness :
    ((download_chapters 1 [5, 6] (fun _ => 2) (fun _ _ => true)
        (fun _ _ => Except.ok ()) (fun _ _ => Except.ok ())
        (fun _ => [1, 0])).map (·.chapter_id) = [5, 6]) ∧
    (List.range 2).map (relative_path 1 2) =
      (List.range 2).map (relative_path 1 2) ∧
    ((List.range 2).map (relative_path 1 2)).length = 2 :=
  download_order_spec 1 2 [5, 6] (fun _ => 2) (fun _ _ => true)
    (fun _ _ => Except.ok ()) (fun _ _ => Except.ok ()) (fun _ => [1, 0]) 2
    (fun _ => true) (fun _ => Except.ok ()) (fun _ => Except.ok ()) [1, 0]
    ((List.range 2).map (relative_path 1 2)) (by decide)
    (by rw [run_chapter_cached 1 2 2 (fun _ => true) (fun _ => Except.ok ())
      (fun _ => Except.ok ()) [1, 0] (by decide) (by decide)])

/-- C8: a page task whose target file already exists returns the page's
relative path with no fetch and no processing, whatever the network or
codec would have done; consequently a chapter whose pages are all on
disk performs zero fetches and returns the same canonical image list. -/
theorem cache_hit_spec (comic_id chapter_id : Int) (m : Nat)
    (ex : Nat → Bool) (d p : Except AppErr Unit)
    (dl pr : Nat → Except AppErr Unit) (i : Nat) (r : List Char)
    (completion : List Nat) (hex : ∀ j ∈ completion, ex j = true)
    (hp : completion.Perm (List.range m)) :
    page_task true d p i r = (.ok (i, r), false) ∧
    run_chapter comic_id chapter_id m ex dl pr completion =
      (.ok ((List.range m).map (relative_path comic_id chapter_id)), 0) :=
  ⟨rfl, run_chapter_cached comic_id chapter_id m ex dl pr completion hex hp⟩

/-- C8 witness: all three pages cached, arbitrary completion order, an
error-producing network oracle — zero fetches, canonical list. -/
theorem cache_hit_spec_witness :
    (∀ j ∈ [2, 0, 1], (fun _ : Nat => true) j = true) ∧
    [2, 0, 1].Perm (List.range 3) ∧
    page_task true (Except.error ⟨ErrKind.internal, []⟩)
        (Except.ok ()) 4 ("x".toList) =
      (.ok (4, "x".toList), false) ∧
    run_chapter 9 9 3 (fun _ => true)
        (fun _ => Except.error ⟨ErrKind.internal, []⟩)
        (fun _ => Except.ok ()) [2, 0, 1] =
      (.ok ((List.range 3).map (relative_path 9 9)), 0) :=
  ⟨by decide, by decide,
    (cache_hit_spec 9 9 3 (fun _ => true)
      (Except.error ⟨ErrKind.internal, []⟩) (Except.ok ())
      (fun _ => Except.error ⟨ErrKind.internal, []⟩)
      (fun _ => Except.ok ()) 4 ("x".toList) [2, 0, 1] (by decide)
      (by decide)).1,
    (cache_hit_spec 9 9 3 (fun _ => true)
      (Except.error ⟨ErrKind.internal, []⟩) (Except.ok ())
      (fun _ => Except.error ⟨ErrKind.internal, []⟩)
      (fun _ => Except.ok ()) 4 ("x".toList) [2, 0, 1] (by decide)
      (by decide)).2⟩

/-- Evaluating the inner `for y` write loop of `stitch_img`: positions
inside the written window take the copied source pixel, the rest keep
the previous buffer. -/
theorem stitch_fold_eval (src : Nat → Pixel) (srcS dstS : Nat) :
    ∀ (m : Nat) (buf : Nat → Pixel) (t : Nat),
      ((List.range m).foldl
        (fun b y => putRow b (dstS + y) (src (srcS + y))) buf) t =
        if dstS ≤ t ∧ t < dstS + m then src (srcS + (t - dstS))
        else buf t := by
  intro m
  induction m with
  | zero =>
    intro buf t
    simp only [List.range_zero, List.foldl_nil]
    rw [if_neg (by omega)]
  | succ m ih =>
    intro buf t
    rw [List.range_succ, List.foldl_append, List.foldl_cons, List.foldl_nil]
    simp only [putRow]
    by_cases h : t = dstS + m
    · rw [if_pos h, if_pos ⟨by omega, by omega⟩]
      congr 1
      omega
    · rw [if_neg h, ih]
      by_cases h2 : dstS ≤ t ∧ t < dstS + m
      · rw [if_pos h2, if_pos ⟨h2.1, by omega⟩]
      · rw [if_neg h2, if_neg (by omega)]

/-- Evaluating one band write of `stitch_img` in terms of the band
geometry. -/
theorem stitchBand_eval (src : Nat → Pixel) (H n i : Nat)
    (buf : Nat → Pixel) (t : Nat) :
    stitchBand src H n i buf t =
      if bandDstStart H n i ≤ t ∧
          t < bandDstStart H n i + bandHeight H n i then
        src (bandSrcStart H n i + (t - bandDstStart H n i))
      else buf t := by
  simp only [stitchBand]
  rw [stitch_fold_eval]
  by_cases h : i = 0
  · subst h
    simp [bandDstStart, bandHeight, bandSrcStart]
  · simp [bandDstStart, bandHeight, bandSrcStart, h]

/-- Band geometry: each band starts where the previous coverage ended
and extends it by its height, staying inside the image. -/
theorem bandParts (H n k : Nat) (hn : 1 ≤ n) (hk : k < n) :
    bandDstStart H n k = coveredEnd H n k ∧
    coveredEnd H n (k + 1) = coveredEnd H n k + bandHeight H n k ∧
    coveredEnd H n (k + 1) ≤ H := by
  have hdm := Nat.div_add_mod H n
  have hsucc : H / n * (k + 1) = H / n * k + H / n := Nat.mul_succ (H / n) k
  have hle : H / n * (k + 1) ≤ H / n * n := Nat.mul_le_mul_left (H / n) hk
  have hcomm : H / n * n = n * (H / n) := Nat.mul_comm (H / n) n
  have hk1 : ¬(k + 1 = 0) := Nat.succ_ne_zero k
  simp only [bandDstStart, bandHeight, coveredEnd, if_neg hk1]
  by_cases h : k = 0
  · subst h
    have hx : H / n ≤ n * (H / n) := Nat.le_mul_of_pos_left (H / n) (by omega)
    norm_num
    omega
  · simp only [if_neg h]
    refine ⟨trivial, by omega, by omega⟩

/-- Inside band `k`, the closed-form source row map agrees with the
band copy. -/
theorem stitchSrcRow_in_band (H n k t : Nat) (hn : 1 ≤ n) (hk : k < n)
    (h1 : coveredEnd H n k ≤ t) (h2 : t < coveredEnd H n (k + 1)) :
    stitchSrcRow H n t = bandSrcStart H n k + (t - bandDstStart H n k) := by
  have hdm := Nat.div_add_mod H n
  have hk1 : ¬(k + 1 = 0) := Nat.succ_ne_zero k
  have hsucc : H / n * (k + 1) = H / n * k + H / n := Nat.mul_succ (H / n) k
  simp only [coveredEnd, if_neg hk1] at h2
  simp only [stitchSrcRow, bandSrcStart, bandDstStart]
  by_cases h : k = 0
  · subst h
    have hz : H / n * 0 = 0 := Nat.mul_zero _
    rw [if_pos (show t < H / n + H % n by omega)]
    norm_num
  · simp only [coveredEnd, if_neg h] at h1
    have hq0 : 0 < H / n := by
      by_contra h0
      have hzero : H / n = 0 := by omega
      have hz1 : H / n * k = 0 := by rw [hzero]; exact Nat.zero_mul k
      have hz2 : H / n * (k + 1) = 0 := by rw [hzero]; exact Nat.zero_mul _
      omega
    have hqk : H / n ≤ H / n * k := by
      have h3 := Nat.mul_le_mul_left (H / n) (show 1 ≤ k by omega)
      rwa [Nat.mul_one] at h3
    rw [if_neg (show ¬t < H / n + H % n by omega)]
    have hdiv : (t - H % n) / (H / n) = k := by
      rw [show t - H % n = H / n * k + (t - H % n - H / n * k) by omega,
        Nat.mul_add_div hq0, Nat.div_eq_of_lt (by omega)]
      omega
    rw [hdiv]
    simp only [if_neg h]

/-- Evaluating the first `k` band writes: rows below the covered end
hold the copied pixel, the rest are still the zero fill. -/
theorem stitch_bands_eval (src : Nat → Pixel) (H n : Nat) (hn : 1 ≤ n) :
    ∀ k, k ≤ n → ∀ t,
      ((List.range k).foldl (fun buf i => stitchBand src H n i buf)
        (fun _ => zeroPixel)) t =
        if t < coveredEnd H n k then src (stitchSrcRow H n t)
        else zeroPixel := by
  intro k
  induction k with
  | zero =>
    intro _ t
    simp [coveredEnd]
  | succ k ih =>
    intro hk t
    rw [List.range_succ, List.foldl_append, List.foldl_cons, List.foldl_nil]
    rw [stitchBand_eval, ih (by omega)]
    obtain ⟨hb1, hb2, hb3⟩ := bandParts H n k hn (by omega)
    by_cases hin : bandDstStart H n k ≤ t ∧
        t < bandDstStart H n k + bandHeight H n k
    · rw [if_pos hin, if_pos (by omega),
        stitchSrcRow_in_band H n k t hn (by omega) (by omega) (by omega)]
    · rw [if_neg hin]
      by_cases hlt : t < coveredEnd H n k
      · rw [if_pos hlt, if_pos (by omega)]
      · rw [if_neg hlt, if_neg (by omega)]

/-- The covered rows after all `n` bands are the whole image. -/
theorem coveredEnd_n (H n : Nat) (hn : 1 ≤ n) : coveredEnd H n n = H := by
  have hdm := Nat.div_add_mod H n
  have hcomm : H / n * n = n * (H / n) := Nat.mul_comm (H / n) n
  simp only [coveredEnd, if_neg (show ¬n = 0 by omega)]
  omega

/-- Closed form of the full column transform. -/
theorem stitchCol_eval (src : Nat → Pixel) (H n : Nat) (hn : 1 ≤ n)
    (t : Nat) :
    stitchCol src H n t =
      if t < H then src (stitchSrcRow H n t) else zeroPixel := by
  have h := stitch_bands_eval src H n hn n le_rfl t
  rw [coveredEnd_n H n hn] at h
  exact h

/-- The closed-form source row map stays inside the image. -/
theorem stitchSrcRow_lt (H n t : Nat) (hn : 1 ≤ n) (ht : t < H) :
    stitchSrcRow H n t < H := by
  have hdm := Nat.div_add_mod H n
  simp only [stitchSrcRow]
  by_cases h1 : t < H / n + H % n
  · rw [if_pos h1]
    have hx : H / n ≤ n * (H / n) := Nat.le_mul_of_pos_left (H / n) (by omega)
    omega
  · rw [if_neg h1]
    have hq0 : 0 < H / n := by
      by_contra h0
      have hzero : H / n = 0 := Nat.le_zero.mp (Nat.not_lt.mp h0)
      have hz1 : n * (H / n) = 0 := by rw [hzero, Nat.mul_zero]
      omega
    have hd1 := Nat.div_add_mod (t - H % n) (H / n)
    have hd2 := Nat.mod_lt (t - H % n) hq0
    have hsucc : H / n * ((t - H % n) / (H / n) + 1) =
        H / n * ((t - H % n) / (H / n)) + H / n :=
      Nat.mul_succ (H / n) ((t - H % n) / (H / n))
    have hin : (t - H % n) / (H / n) < n := by
      by_contra hni
      have h3 : H / n * n ≤ H / n * ((t - H % n) / (H / n)) :=
        Nat.mul_le_mul_left (H / n) (by omega)
      have hcomm : H / n * n = n * (H / n) := Nat.mul_comm (H / n) n
      omega
    have hsub : H / n * ((t - H % n) / (H / n) + 1) + H % n ≤ H := by
      have h3 : H / n * ((t - H % n) / (H / n) + 1) ≤ H / n * n :=
        Nat.mul_le_mul_left (H / n) (by omega)
      have hcomm : H / n * n = n * (H / n) := Nat.mul_comm (H / n) n
      omega
    omega

/-- `stitchDstRow` is a left inverse of the source row map on
`[0, height)`. -/
theorem stitchDstRow_stitchSrcRow (H n t : Nat) (hn : 1 ≤ n) (ht : t < H) :
    stitchDstRow H n (stitchSrcRow H n t) = t := by
  have hdm := Nat.div_add_mod H n
  simp only [stitchSrcRow, stitchDstRow]
  by_cases h1 : t < H / n + H % n
  · rw [if_pos h1]
    -- row = H - q - r + t = q*(n-1) + t
    have hmul : H / n * (n - 1) + H / n = H / n * n := by
      rw [← Nat.mul_succ]
      congr 1
      omega
    have hcomm : H / n * n = n * (H / n) := Nat.mul_comm (H / n) n
    have hrow : H - H / n - H % n + t = H / n * (n - 1) + t := by omega
    rw [hrow, if_pos (by omega)]
    omega
  · rw [if_neg h1]
    have hq0 : 0 < H / n := by
      by_contra h0
      have hzero : H / n = 0 := Nat.le_zero.mp (Nat.not_lt.mp h0)
      have hz1 : n * (H / n) = 0 := by rw [hzero, Nat.mul_zero]
      omega
    have hd1 := Nat.div_add_mod (t - H % n) (H / n)
    have hd2 := Nat.mod_lt (t - H % n) hq0
    set i := (t - H % n) / (H / n) with hidef
    have hsucc : H / n * (i + 1) = H / n * i + H / n := Nat.mul_succ (H / n) i
    have hi1 : 1 ≤ i := by
      rw [hidef]
      rw [Nat.one_le_div_iff hq0]
      omega
    have hin : i < n := by
      by_contra hni
      have h3 : H / n * n ≤ H / n * i := Nat.mul_le_mul_left (H / n) (by omega)
      have hcomm : H / n * n = n * (H / n) := Nat.mul_comm (H / n) n
      omega
    have hcomm : H / n * n = n * (H / n) := Nat.mul_comm (H / n) n
    -- row = q*(n-i-1) + u with u = t - (q*i + r)
    have hA : H / n * (n - i - 1) + H / n * (i + 1) = H / n * n := by
      rw [← Nat.mul_add]
      congr 1
      omega
    have hrow : H - H / n * (i + 1) - H % n + (t - (H / n * i + H % n)) =
        H / n * (n - i - 1) + (t - (H / n * i + H % n)) := by omega
    rw [hrow]
    have hu : t - (H / n * i + H % n) < H / n := by omega
    -- branch condition of stitchDstRow: row < q*(n-1)
    have hB : H / n * (n - i - 1) + H / n = H / n * (n - i) := by
      rw [← Nat.mul_succ]
      congr 1
      omega
    have hC : H / n * (n - i) ≤ H / n * (n - 1) :=
      Nat.mul_le_mul_left (H / n) (by omega)
    rw [if_neg (by omega)]
    have hdiv : (H / n * (n - i - 1) + (t - (H / n * i + H % n))) / (H / n) =
        n - i - 1 := by
      rw [Nat.mul_add_div hq0, Nat.div_eq_of_lt hu]
      omega
    have hmod : (H / n * (n - i - 1) + (t - (H / n * i + H % n))) % (H / n) =
        t - (H / n * i + H % n) := by
      rw [Nat.mul_add_mod, Nat.mod_eq_of_lt hu]
    rw [hdiv, hmod]
    have hE : n - 1 - (n - i - 1) = i := by omega
    rw [hE]
    omega

/-- The source row map permutes the rows of the image. -/
theorem stitchSrcRow_map_range (H n : Nat) (hn : 1 ≤ n) :
    Multiset.map (stitchSrcRow H n) (Multiset.range H) = Multiset.range H := by
  have hnodup : (Multiset.map (stitchSrcRow H n) (Multiset.range H)).Nodup :=
    Multiset.Nodup.map_on
      (fun a ha b hb hab => by
        rw [Multiset.mem_range] at ha hb
        have h2 := congrArg (stitchDstRow H n) hab
        rwa [stitchDstRow_stitchSrcRow H n a hn ha,
          stitchDstRow_stitchSrcRow H n b hn hb] at h2)
      (Multiset.nodup_range H)
  have hsub : Multiset.map (stitchSrcRow H n) (Multiset.range H) ⊆
      Multiset.range H := by
    intro a ha
    rcases Multiset.mem_map.mp ha with ⟨t, ht, rfl⟩
    rw [Multiset.mem_range] at ht ⊢
    exact stitchSrcRow_lt H n t hn ht
  refine Multiset.eq_of_le_of_card_le
    ((Multiset.le_iff_subset hnodup).mpr hsub) ?_
  rw [Multiset.card_map]

/-- C2: `stitch_img` preserves the image dimensions and, column by
column, the multiset of pixel values; the `i`-th output band is copied
from the `i`-th source band counted from the bottom, with band heights
`⌊H/n⌋` except the topmost output band, which carries the extra
remainder slice of height `H mod n` that offsets every later output
band downward. -/
theorem stitch_img_spec (I : Img) (n x i y : Nat) (hn : 2 ≤ n) (hi : i < n)
    (hy : y < bandHeight I.height n i) :
    (stitch_img I n).width = I.width ∧
    (stitch_img I n).height = I.height ∧
    colMultiset (stitch_img I n) x = colMultiset I x ∧
    (stitch_img I n).pix x (bandDstStart I.height n i + y) =
      I.pix x (bandSrcStart I.height n i + y) := by
  have hn1 : 1 ≤ n := by omega
  refine ⟨rfl, rfl, ?_, ?_⟩
  · simp only [colMultiset, stitch_img]
    rw [Multiset.map_congr rfl (fun t ht => by
      rw [stitchCol_eval (fun y2 => I.pix x y2) I.height n hn1 t,
        if_pos (Multiset.mem_range.mp ht)])]
    rw [show (fun t => I.pix x (stitchSrcRow I.height n t)) =
        ((fun y2 => I.pix x y2) ∘ stitchSrcRow I.height n) from rfl,
      ← Multiset.map_map, stitchSrcRow_map_range I.height n hn1]
  · obtain ⟨hb1, hb2, hb3⟩ := bandParts I.height n i hn1 hi
    have hlt : bandDstStart I.height n i + y < I.height := by omega
    show stitchCol (fun y2 => I.pix x y2) I.height n
        (bandDstStart I.height n i + y) = _
    rw [stitchCol_eval _ _ _ hn1, if_pos hlt,
      stitchSrcRow_in_band I.height n i (bandDstStart I.height n i + y)
        hn1 hi (by omega) (by omega)]
    congr 1
    omega

/-- C2 witness: a 1×5 image descrambled with two blocks. -/
theorem stitch_img_spec_witness :
    (1 : Nat) < 2 ∧ 1 < bandHeight 5 2 1 ∧
    colMultiset (stitch_img ⟨1, 5, fun x y => (x + 10 * y, 0, 0)⟩ 2) 0 =
      colMultiset ⟨1, 5, fun x y => (x + 10 * y, 0, 0)⟩ 0 ∧
    (stitch_img ⟨1, 5, fun x y => (x + 10 * y, 0, 0)⟩ 2).pix 0
        (bandDstStart 5 2 1 + 1) =
      (⟨1, 5, fun x y => (x + 10 * y, 0, 0)⟩ : Img).pix 0
        (bandSrcStart 5 2 1 + 1) :=
  ⟨by decide, by decide,
   (stitch_img_spec ⟨1, 5, fun x y => (x + 10 * y, 0, 0)⟩ 2 0 1 1
     (by decide) (by decide) (by decide)).2.2.1,
   (stitch_img_spec ⟨1, 5, fun x y => (x + 10 * y, 0, 0)⟩ 2 0 1 1
     (by decide) (by decide) (by decide)).2.2.2⟩
